import Mathlib

/-!
Verification of the ANOVA core of `Lib/stats/stats.py` (function `anova` and
its helpers) against its natural-language specification.

The Python source is shallowly embedded: Python ints are `Nat`/`Int`, floats
are `ℚ` (the code performs only field operations on them; external numeric
collaborators such as `math.sqrt`, `math.pow`, `LinearAlgebra.determinant`
and the F-distribution tail `fprob` are taken as explicit function
parameters, exactly as the spec declares them to be collaborator contracts),
lists are `List`, and Numeric arrays are lists of lists or index functions.
-/

namespace SciPyStats

/-! ### Bitmask helpers (stats.py lines 2529-2576)

`subset`, `propersubset`, `makebin`, `makelist` translated directly from the
source.  Python `a & b` on nonnegative ints is `Nat.land`, `1 << j` is
`2 ^ j`. -/

/-- `subset(a,b)` from stats.py line 2539: `(a&b)==a`. -/
def subsetB (a b : ℕ) : Bool := (a &&& b) == a

/-- `propersubset(a,b)` from stats.py line 2542: subset and not equal. -/
def propersubsetB (a b : ℕ) : Bool := subsetB a b && !(a == b)

/-- `makebin(sourcelist)` from stats.py line 2565: fold `outbin + 2**item`
over the list, starting from 0. -/
def makebin (sourcelist : List ℕ) : ℕ :=
  sourcelist.foldl (fun outbin item => outbin + 2 ^ item) 0

/-- `makelist(source,ncols)` from stats.py line 2571: the columns
`j < ncols` with `subset(1<<j, source)`, in increasing order. -/
def makelist (source ncols : ℕ) : List ℕ :=
  (List.range ncols).filter (fun j => subsetB (2 ^ j) source)

/-! ### Source enumeration and classification (stats.py lines 1934, 2068, 2196)

The main loop is `for source in range(3,Nallsources,2)` with
`Nallsources = 2**(Nfactors+1)` (line 1819).  A source is handled by the
between-subjects branch when `((source-1) & Bwithins) == 0` (line 2068),
by the pure-within branch when `subset((source-1),Bwithins)` (line 2196),
and by the mixed (within-between) branch otherwise (line 2202). -/

/-- Python `range(start, stop, 2)` (ascending, step 2). -/
def pyRange2 (start stop : ℕ) : List ℕ :=
  List.range' start ((stop - start + 1) / 2) 2

/-- The sources visited by the main loop of `anova` for a design with
`Nfactors` factors: `range(3, 2**(Nfactors+1), 2)` (stats.py line 1934). -/
def anovaSources (Nfactors : ℕ) : List ℕ :=
  pyRange2 3 (2 ^ (Nfactors + 1))

/-- The three kinds of source handled by the main loop. -/
inductive SourceKind : Type
  | between : SourceKind
  | within : SourceKind
  | mixed : SourceKind
deriving DecidableEq

/-- Branch selection of the main loop for one source (stats.py lines 2068,
2196, 2202). -/
def classifySource (Bwithins source : ℕ) : SourceKind :=
  if (source - 1) &&& Bwithins = 0 then SourceKind.between
  else if subsetB (source - 1) Bwithins then SourceKind.within
  else SourceKind.mixed

/-- Whether processing `source` appends an entry to the effect memo
(`alleffects`/`alleffsources`): the pure-between branch appends at
lines 2133-2134 and the mixed branch appends inside `d_restrict_source`
at lines 2439-2440; the pure-within branch (`d_restrict_mean`) appends
nothing. -/
def appendsEffect (Bwithins source : ℕ) : Bool :=
  ((source - 1) &&& Bwithins == 0) || !(subsetB (source - 1) Bwithins)

/-- The contents of the memo key list `alleffsources` when the main loop
reaches `source`: all previously visited sources that appended an effect. -/
def memoSources (Bwithins source : ℕ) : List ℕ :=
  (pyRange2 3 source).filter (fun s => appendsEffect Bwithins s)

/-- The memoized subsources the pure-between branch looks up for `source`:
`for subsource in range(3,source,2): if subset(subsource-1,source-1)` at
stats.py lines 2124-2128. -/
def neededSubsBetween (source : ℕ) : List ℕ :=
  (pyRange2 3 source).filter (fun sub => subsetB (sub - 1) (source - 1))

/-- The memoized subsources `d_restrict_source` looks up for a mixed
`source`: `for subsource in range(3,source-2,2)` with the three guard
conditions of stats.py lines 2426-2433. -/
def neededSubsMixed (Bwithins source : ℕ) : List ℕ :=
  (pyRange2 3 (source - 2)).filter (fun sub =>
    propersubsetB (sub - 1) (source - 1) &&
    ((sub - 1) &&& Bwithins == (source - 1) &&& Bwithins) &&
    !((sub - 1) == (source - 1) &&& Bwithins))

/-! ### Design classification (stats.py `findwithin`, lines 2859-2872)

`findwithin` consumes three `pstat` tabular helpers that are not part of this
file; the spec lists them among the excluded "tabular-data reshaping helpers
(unique/collapse/recode over rows)" consumed as plain utilities, so they are
modelled here from the spec.  Rows are lists of integer codes: column 0 the
subject identifier, columns 1..k factor levels, last column the value. -/

/-- Modelled from the spec: `pstat.colex(listoflists, col)` — extract one
column of a row-major table. -/
def colex (data : List (List ℤ)) (col : ℕ) : List ℤ :=
  data.map (fun row => row.getD col 0)

/-- Modelled from the spec: `pstat.unique(inlist)` — the distinct items of a
list in first-occurrence order (helper recursion with an accumulator). -/
def uniqueAux (acc : List ℤ) : List ℤ → List ℤ
  | [] => acc
  | x :: xs => uniqueAux (if x ∈ acc then acc else acc ++ [x]) xs

/-- Modelled from the spec: `pstat.unique(inlist)` — the distinct items of a
list in first-occurrence order. -/
def uniqueL (l : List ℤ) : List ℤ := uniqueAux [] l

/-- Modelled from the spec: `pstat.linexand(listoflists, col, value)` — the
rows whose entry in `col` equals `value`. -/
def linexand (data : List (List ℤ)) (col : ℕ) (v : ℤ) : List (List ℤ) :=
  data.filter (fun row => row.getD col 0 = v)

/-- `findwithin(data)` from stats.py lines 2859-2872: for each factor column
`col` (1-based), slice the table to the rows whose `col` entry equals the
first unique level of column 1, and flag the factor as within-subjects (1)
iff the slice has fewer distinct subjects than rows. -/
def findwithin (data : List (List ℤ)) : List ℕ :=
  (List.range' 1 ((data.headD []).length - 2)).map (fun col =>
    let rows := linexand data col ((uniqueL (colex data 1)).headD 0)
    if (uniqueL (colex rows 0)).length < rows.length then 1 else 0)

/-! ### The one-factor design pipeline (degrees of freedom)

For a one-factor table (subject, level, value) the main loop of `anova`
visits the single source 3.  If `findwithin` classified the factor as
between, the pure-between branch applies with `BNs = [Nlevels[1]]`
(lines 2059-2060) giving `dfnum = L-1` (lines 2154-2155) and
`dfden = Nsubjects - L` (line 2156).  If it classified the factor as
within, the pure-within branch applies with `BNs = [1]` (line 2062) giving
`dfnum = L-1` (lines 2208-2210) and `dfden = Nsubjects - 1 - dfnum + 1`
(line 2213).  `Nsubjects` is the number of distinct subject codes
(line 1820) and `L` the number of distinct levels (lines 1813-1815). -/

/-- A concrete one-factor observation table: subjects 0,0,1,2; factor levels
10,10,20,20; values in the last column. -/
def permTableA : List (List ℤ) :=
  [[0, 10, 100], [0, 10, 101], [1, 20, 102], [2, 20, 103]]

/-- `permTableA` with its first two rows swapped (a row permutation that
happens to preserve the classifier's reference slicing). -/
def permTableC : List (List ℤ) :=
  [[0, 10, 101], [0, 10, 100], [1, 20, 102], [2, 20, 103]]

/-- `multiply.reduce(ravel(BNs))` with `BNs` from stats.py lines 2059-2062:
the product of the between-subjects level counts (`Nlevels` at the columns
`Bscols[1:]`), or 1 when the design has no between-subjects factors. -/
def prodBNs (Nlevels : List ℤ) (Bscols : List ℕ) : ℤ :=
  if Bscols.drop 1 = [] then 1
  else ((Bscols.drop 1).map (fun c => Nlevels.getD c 0)).prod

/-- `dfnum` of a pure-between source (stats.py lines 2154-2155): product of
`levels - 1` over the columns of `makelist(source-1, Nfactors+1)`. -/
def dfnumBetween (Nlevels : List ℤ) (Nfactors source : ℕ) : ℤ :=
  ((makelist (source - 1) (Nfactors + 1)).map (fun c => Nlevels.getD c 0 - 1)).prod

/-- `dfden` of a pure-between source (stats.py line 2156). -/
def dfdenBetween (Nsubjects : ℤ) (Nlevels : List ℤ) (Bscols : List ℕ) : ℤ :=
  Nsubjects - prodBNs Nlevels Bscols

/-- `dfnum` of a within-containing source (stats.py lines 2208-2210):
the code takes `makelist(source, Nfactors+1)` (which includes the subject
column 0), subtracts 1 from each level count and drops the first entry. -/
def dfnumWithin (Nlevels : List ℤ) (Nfactors source : ℕ) : ℤ :=
  (((makelist source (Nfactors + 1)).map (fun c => Nlevels.getD c 0 - 1)).drop 1).prod

/-- `dfden` of a pure-within source (stats.py line 2213). -/
def dfdenWithin (Nsubjects : ℤ) (Nlevels : List ℤ) (Bscols : List ℕ)
    (Nfactors source : ℕ) : ℤ :=
  Nsubjects - prodBNs Nlevels Bscols - dfnumWithin Nlevels Nfactors source + 1

/-- The univariate F computation shared by the pure-between branch
(lines 2159-2164) and the pure-within branch (lines 2214-2219):
`MS = SS/dfnum`, `MSw = SSw/dfden`, `F = MS/MSw` unless `MSw == 0`, in
which case `F = 0` ("absolutely NO error in the full model"). -/
def univariateF (SS SSw : ℚ) (dfnum dfden : ℤ) : ℚ :=
  let MS := SS / (dfnum : ℚ)
  let MSw := SSw / (dfden : ℚ)
  if MSw ≠ 0 then MS / MSw else 0

/-- The p-value step of lines 2166-2169 (and 2221-2224, 2250-2253):
`prob = fprob(dfnum, dfden, f)` when `f >= 0`, else 1.  `fprob` is the
F-distribution right-tail collaborator declared by the spec. -/
def univariateProb (fprob : ℤ → ℤ → ℚ → ℚ) (dfnum dfden : ℤ) (f : ℚ) : ℚ :=
  if 0 ≤ f then fprob dfnum dfden f else 1

/-! ### Rao's approximation for mixed sources (stats.py lines 2228-2253) -/

/-- `m = Nsubjects - 1 - (p+k)/2.0` (stats.py line 2234). -/
def raoM (p k Nsubjects : ℚ) : ℚ := Nsubjects - 1 - (p + k) / 2

/-- `d_en = p**2 + (k-1)**2 - 5` (stats.py line 2235). -/
def raoDen (p k : ℚ) : ℚ := p ^ 2 + (k - 1) ^ 2 - 5

/-- `s` of stats.py lines 2236-2239: 1 when `d_en` is zero, otherwise the
collaborator square root of `((p*(k-1))**2 - 4) / d_en`. -/
def raoS (sqrtFn : ℚ → ℚ) (p k : ℚ) : ℚ :=
  if raoDen p k = 0 then 1 else sqrtFn (((p * (k - 1)) ^ 2 - 4) / raoDen p k)

/-- `dfden = m*s - dfnum/2.0 + 1` (stats.py line 2240). -/
def raoDfden (sqrtFn : ℚ → ℚ) (p k Nsubjects dfnum : ℚ) : ℚ :=
  raoM p k Nsubjects * raoS sqrtFn p k - dfnum / 2 + 1

/-- The mixed-source F of stats.py lines 2242-2248: when `det(er)` is
nonzero, Wilks' lambda `det(ef)/det(er)` is raised to `1/s` with the
`math.pow` collaborator and transformed by Rao's formula; when `det(er)`
is zero the sentinel `F = 0` is substituted. -/
def wilksRaoF (sqrtFn : ℚ → ℚ) (powFn : ℚ → ℚ → ℚ)
    (p k Nsubjects dfnum detEf detEr : ℚ) : ℚ :=
  if detEr ≠ 0 then
    let lmbda := detEf / detEr
    let W := powFn lmbda (1 / raoS sqrtFn p k)
    ((1 - W) / W) * (raoDfden sqrtFn p k Nsubjects dfnum / dfnum)
  else 0

/-- The mixed-branch statistic with `p` and `k` bound as the code binds
them: `p = workD.shape[1]` (line 2230; `workD` is guaranteed 2D by lines
2185-2186) and `k = multiply.reduce(ravel(BNs))` (line 2233). -/
def mixedSourceF (sqrtFn : ℚ → ℚ) (powFn : ℚ → ℚ → ℚ) (workd : List (List ℚ))
    (Nlevels : List ℤ) (Bscols : List ℕ) (Nsubjects dfnum detEf detEr : ℚ) : ℚ :=
  wilksRaoF sqrtFn powFn ((workd.headD []).length : ℚ)
    ((prodBNs Nlevels Bscols : ℤ) : ℚ) Nsubjects dfnum detEf detEr

/-! ### The contrast-coefficient table (stats.py lines 1863-1886, 2005-2011) -/

/-- The static orthogonal-polynomial coefficient table `coefflist`
(stats.py lines 1863-1886); entry `L-1` serves a within factor with `L`
levels ("This limits the within-subject level count to 10!"). -/
def coefflist : List (List (List ℤ)) :=
  [[[1]],
   [[-1, 1]],
   [[-1, 0, 1], [1, -2, 1]],
   [[-3, -1, 1, 3], [1, -1, -1, 1], [-1, 3, -3, 1]],
   [[-2, -1, 0, 1, 2], [2, -1, -2, -1, 2], [-1, 2, 0, -2, 1], [1, -4, 6, -4, 1]],
   [[-5, -3, -1, 1, 3, 5], [5, -1, -4, -4, -1, 5], [-5, 7, 4, -4, -7, 5],
    [1, -3, 2, 2, -3, 1], [-1, 5, -10, 10, -5, 1]],
   [[-3, -2, -1, 0, 1, 2, 3], [5, 0, -3, -4, -3, 0, 5], [-1, 1, 1, 0, -1, -1, 1],
    [3, -7, 1, 6, 1, -7, 3], [-1, 4, -5, 0, 5, -4, 1], [1, -6, 15, -20, 15, -6, 1]],
   [[-7, -5, -3, -1, 1, 3, 5, 7], [7, 1, -3, -5, -5, -3, 1, 7],
    [-7, 5, 7, 3, -3, -7, -5, 7], [7, -13, -3, 9, 9, -3, -13, 7],
    [-7, 23, -17, -15, 15, 17, -23, 7], [1, -5, 9, -5, -5, 9, -5, 1],
    [-1, 7, -21, 35, -35, 21, -7, 1]],
   [[-4, -3, -2, -1, 0, 1, 2, 3, 4], [28, 7, -8, -17, -20, -17, -8, 7, 28],
    [-14, 7, 13, 9, 0, -9, -13, -7, 14], [14, -21, -11, 9, 18, 9, -11, -21, 14],
    [-4, 11, -4, -9, 0, 9, 4, -11, 4], [4, -17, 22, 1, -20, 1, 22, -17, 4],
    [-1, 6, -14, 14, 0, -14, 14, -6, 1], [1, -8, 28, -56, 70, -56, 28, -8, 1]],
   [[-9, -7, -5, -3, -1, 1, 3, 5, 7, 9], [6, 2, -1, -3, -4, -4, -3, -1, 2, 6],
    [-42, 14, 35, 31, 12, -12, -31, -35, -14, 42],
    [18, -22, -17, 3, 18, 18, 3, -17, -22, 18],
    [-6, 14, -1, -11, -6, 6, 11, 1, -14, 6], [3, -11, 10, 6, -8, -8, 6, 10, -11, 3],
    [9, -47, 86, -42, -56, 56, 42, -86, 47, -9],
    [1, -7, 20, -28, 14, 14, -28, 20, -7, 1],
    [-1, 9, -36, 84, -126, 126, -84, 36, -9, 1]]]

/-- The lookup `coefflist[nlevels-1][idx]` of stats.py line 2009; `none`
models the `IndexError` caught at lines 2010-2011. -/
def getCoeff (nlevels idx : ℕ) : Option (List ℤ) :=
  (coefflist.get? (nlevels - 1)).bind (fun row => row.get? idx)

/-- The D-variable construction demands one coefficient row per contrast
index `0 .. L-2` of a within factor with `L` levels (`dvarshape` is the
level counts minus 1, lines 1980-1984; `indxlist` enumerates it).  This
runs all those lookups, raising the level-limit error of line 2011 when
any fails. -/
def contrastRowsFor (L : ℕ) : Except String (List (List ℤ)) :=
  let opts := (List.range (L - 1)).map (fun idx => getCoeff L idx)
  if opts.all Option.isSome then Except.ok (opts.filterMap id)
  else Except.error "anova() can only handle up to 10 levels on a within-subject factors"

/-! ### D-variable model errors (stats.py lines 2183-2205, 2325-2350,
2454-2470, 2473-2507)

`workD` is the 2D D-variable array (one row per subject, one column per
contrast variable).  `subjslots` marks which subjects belong to which
between-subjects cell; the loop of `subtr_cellmeans` visits one 0/1 mask
per between-cell combination, which is how it is embedded here
(`cells` is the list of per-cell subject masks `tsubjslots[idx]`).
`LA.determinant` is the collaborator `det`. -/

/-- Entry `(i,j)` of a list-of-lists matrix, defaulting to 0 out of
bounds. -/
def entryD (A : List (List ℚ)) (i j : ℕ) : ℚ := (A.getD i []).getD j 0

/-- Row-wise dot product (`add.reduce(workd[i]*workd[j])`). -/
def dotQ (xs ys : List ℚ) : ℚ := (List.zipWith (fun a b => a * b) xs ys).sum

/-- Numeric `transpose` of a rectangular 2D array. -/
def transposeM (m : List (List ℚ)) : List (List ℚ) :=
  (List.range (m.headD []).length).map (fun i => m.map (fun row => row.getD i 0))

/-- `groupmns` of stats.py line 2503: the per-variable mean over the
subjects selected by a 0/1 mask (`mean(compress(mask,tworkd*mask),1)`). -/
def groupMeans (tw : List (List ℚ)) (mask : List ℚ) : List ℚ :=
  tw.map (fun varrow => dotQ varrow mask / mask.sum)

/-- `multiply.outer(groupmns,mask)` of stats.py line 2506. -/
def outerM (v mask : List ℚ) : List (List ℚ) :=
  v.map (fun x => mask.map (fun mk => x * mk))

/-- Elementwise matrix subtraction. -/
def matSub (A B : List (List ℚ)) : List (List ℚ) :=
  List.zipWith (List.zipWith (fun a b => a - b)) A B

/-- Elementwise matrix addition (the `+` of stats.py line 2203). -/
def matAdd (A B : List (List ℚ)) : List (List ℚ) :=
  List.zipWith (List.zipWith (fun a b => a + b)) A B

/-- `subtr_cellmeans(workd,subjslots)` of stats.py lines 2473-2507: starting
from `tworkd = transpose(workd)`, subtract `outer(groupmns, mask)` for the
mask of every between-subjects cell. -/
def subtr_cellmeans (workd : List (List ℚ)) (cells : List (List ℚ)) : List (List ℚ) :=
  cells.foldl
    (fun errors mask => matSub errors (outerM (groupMeans (transposeM workd) mask) mask))
    (transposeM workd)

/-- `multivar_sscalc(workd)` of stats.py lines 2454-2470: the symmetric
cross-product matrix `sserr[i][j] = add.reduce(workd[i]*workd[j])`. -/
def multivar_sscalc (w : List (List ℚ)) : List (List ℚ) :=
  w.map (fun ri => w.map (fun rj => dotQ ri rj))

/-- `d_full_model(workd,subjslots)` of stats.py lines 2325-2332. -/
def d_full_model (workd cells : List (List ℚ)) : List (List ℚ) :=
  multivar_sscalc (subtr_cellmeans workd cells)

/-- `grandDmeans` of stats.py line 2344: `mean(workd,0,1)`, the grand mean
of each D-variable over all subjects. -/
def grandDmeans (workd : List (List ℚ)) : List ℚ :=
  (transposeM workd).map (fun col => col.sum / (workd.length : ℚ))

/-- `d_restrict_mean(workd,subjslots)` of stats.py lines 2335-2350: the
cell-mean residuals plus each D-variable's grand mean (broadcast over the
subject axis), then the cross-product matrix. -/
def d_restrict_mean (workd cells : List (List ℚ)) : List (List ℚ) :=
  multivar_sscalc
    (List.zipWith (fun gv row => row.map (fun e => e + gv))
      (grandDmeans workd) (subtr_cellmeans workd cells))

/-- The `(SS, SSw)` computation of the within-containing branch, stats.py
lines 2190-2205: `ef = Dfull_model(...)`; `er = Drestrict_mean(...)` for a
pure-within source or `Drestrict_source(...) + ef` for a mixed source
(`restrict` is the matrix `Drestrict_source` returns); then
`SSw = det(ef)` and `SS = det(er) - SSw`. -/
def withinBranchSS (det : List (List ℚ) → ℚ) (purewithin : Bool)
    (restrict : List (List ℚ)) (workd cells : List (List ℚ)) : ℚ × ℚ :=
  let ef := d_full_model workd cells
  let er := if purewithin then d_restrict_mean workd cells else matAdd restrict ef
  (det er - det ef, det ef)

/-- Shape predicate: `E` has `q` rows, each of length `n` (out-of-range
rows read as `[]`). -/
def GoodMat (E : List (List ℚ)) (q n : ℕ) : Prop :=
  E.length = q ∧ ∀ i, i < q → (E.getD i []).length = n

/-! ### Numeric arrays as index functions (for the effect recursions)

The between-subjects cell arrays (`Marray`, `Narray`, and the `DM`/`DN`
arrays of the mixed path) are embedded as total functions from axis-indexed
coordinates (`ℕ → ℕ`) to `ℚ`, together with an explicit `shape` list.
A Numeric "keepdims" collapse then stays a function on the full coordinate
space, constant along the collapsed axes, which is exactly Numeric's
broadcast semantics. -/

/-- Replace the coordinates of `idx` on the axes in `axes` by those of `t`. -/
def overrideIdx (idx : ℕ → ℕ) (axes : List ℕ) (t : ℕ → ℕ) : ℕ → ℕ :=
  fun ax => if ax ∈ axes then t ax else idx ax

/-- All coordinate assignments to the axes in the given list, each ranging
below the corresponding `shape` entry (coordinates of other axes are 0). -/
def tuplesOn (shape : List ℕ) : List ℕ → List (ℕ → ℕ)
  | [] => [fun _ => 0]
  | d :: ds =>
    (tuplesOn shape ds).flatMap (fun t =>
      (List.range (shape.getD d 1)).map
        (fun vcoord => fun ax => if ax = d then vcoord else t ax))

/-- The number of cells spanned by the listed axes. -/
def axesCount (shape : List ℕ) (axes : List ℕ) : ℕ :=
  (axes.map (fun d => shape.getD d 1)).prod

/-- `sum(A, axes, keepdims)`: sum over the listed axes. -/
def sumAxes (shape : List ℕ) (axes : List ℕ) (A : (ℕ → ℕ) → ℚ) (idx : ℕ → ℕ) : ℚ :=
  ((tuplesOn shape axes).map (fun t => A (overrideIdx idx axes t))).sum

/-- `mean(A, axes, keepdims)` (stats.py `mean`, line 246): sum over the
listed axes divided by the number of collapsed cells. -/
def meanAxes (shape : List ℕ) (axes : List ℕ) (A : (ℕ → ℕ) → ℚ) (idx : ℕ → ℕ) : ℚ :=
  sumAxes shape axes A idx / (axesCount shape axes : ℚ)

/-- `harmonicmean(A, axes, keepdims)` (the harmonic-mean collaborator):
`n / sum(1/x)` over the collapsed cells. -/
def harmonicAxes (shape : List ℕ) (axes : List ℕ) (A : (ℕ → ℕ) → ℚ) (idx : ℕ → ℕ) : ℚ :=
  (axesCount shape axes : ℚ) / sumAxes shape axes (fun j => 1 / A j) idx

/-- The axis of `Marray` holding input column `c`: `Bscols.index(c) - 1`
(stats.py lines 2100, 2105). -/
def marrayDim (Bscols : List ℕ) (c : ℕ) : ℕ := (Bscols.indexOf c) - 1

/-- The `Marray` axes of the columns in the bitmask `mask`
(`map(Bscols.index, makelist(mask, Nfactors+1)) - 1`). -/
def btwDims (Bscols : List ℕ) (mask k : ℕ) : List ℕ :=
  (makelist mask (k + 1)).map (fun c => marrayDim Bscols c)

/-- The pure-between "pure effect" of one source (stats.py lines 2102-2130):
collapse `Marray` to the source axes (mean over the non-source axes),
compute the grand average `ga` from the harmonic-mean cell counts, and
subtract `ga` plus every memoized subsource effect (the loop at
lines 2124-2128; the subsource effects are recomputed here rather than
memoized, which yields the same values).  `source` carries the subject
bit, as in the main loop. -/
def betweenEffect (shape : List ℕ) (Bscols : List ℕ) (k Bbetweens : ℕ)
    (Marr Narr : (ℕ → ℕ) → ℚ) (source : ℕ) : (ℕ → ℕ) → ℚ :=
  fun idx =>
    let nonsrc := btwDims Bscols (Nat.ldiff Bbetweens source) k
    let srcdims := btwDims Bscols (source - 1) k
    let sourceM := meanAxes shape nonsrc Marr
    let sourceN := harmonicAxes shape nonsrc Narr
    let ga := sumAxes shape srcdims
      (fun j => sourceM j * sourceN j / sumAxes shape srcdims sourceN (fun _ => 0))
      (fun _ => 0)
    sourceM idx -
      (ga + (((pyRange2 3 source).filter
          (fun sub => subsetB (sub - 1) (source - 1))).attach.map
        (fun sp => betweenEffect shape Bscols k Bbetweens Marr Narr sp.1 idx)).sum)
termination_by source
decreasing_by
  rcases List.mem_filter.mp sp.2 with ⟨hr, _⟩
  unfold pyRange2 at hr
  rw [List.mem_range'] at hr
  rcases hr with ⟨i, hi, heq⟩
  omega

/-- The pure-between sum of squares of one source (stats.py lines
2136-2138, with the grand-interaction override of lines 2118-2120):
`SS = sum((effect**2 * sourceNarray) * prod(nonsource levels))`. -/
def betweenSS (shape : List ℕ) (Bscols : List ℕ) (k Bbetweens : ℕ)
    (Marr Narr : (ℕ → ℕ) → ℚ) (source : ℕ) : ℚ :=
  let nonsrc := btwDims Bscols (Nat.ldiff Bbetweens source) k
  let srcdims := btwDims Bscols (source - 1) k
  let sourceN := if source = 2 ^ (k + 1) - 1
    then harmonicAxes shape (List.range shape.length) Narr
    else harmonicAxes shape nonsrc Narr
  sumAxes shape srcdims
    (fun j => betweenEffect shape Bscols k Bbetweens Marr Narr source j ^ 2 *
      sourceN j * (axesCount shape nonsrc : ℚ))
    (fun _ => 0)

/-- `SSw` of the pure-between branch (stats.py lines 2084-2092): the sum
over the per-subject rows of the squared deviation from the row's
between-cell mean. -/
def SSwBetween (rows : List ((ℕ → ℕ) × ℚ)) (Marr : (ℕ → ℕ) → ℚ) : ℚ :=
  (rows.map (fun r => (r.2 - Marr r.1) ^ 2)).sum

/-- The mixed-source "pure effect" of `d_restrict_source` (stats.py lines
2396-2436): collapse `DM` over the non-source between axes, form the grand
average over all between axes (lines 2412-2417), and subtract it together
with the memoized effects of the guarded subsources (lines 2424-2433; the
guard list is `neededSubsMixed`).  The last axis of `shape` is the
D-variable axis, which is never collapsed. -/
def mixedEffect (shape : List ℕ) (Bscols : List ℕ) (k Bwithins Bbetweens : ℕ)
    (DMarr DNarr : (ℕ → ℕ) → ℚ) (source : ℕ) : (ℕ → ℕ) → ℚ :=
  fun idx =>
    let nonsrc := btwDims Bscols (Nat.ldiff Bbetweens source) k
    let btwAll := List.range (shape.length - 1)
    let sourceDM := meanAxes shape nonsrc DMarr
    let sourceDN := harmonicAxes shape nonsrc DNarr
    let variableNs := sumAxes shape btwAll sourceDN
    let ga := sumAxes shape btwAll (fun j => sourceDM j * sourceDN j / variableNs j)
    sourceDM idx -
      (ga idx + ((neededSubsMixed Bwithins source).attach.map
        (fun sp =>
          mixedEffect shape Bscols k Bwithins Bbetweens DMarr DNarr sp.1 idx)).sum)
termination_by source
decreasing_by
  have hr := (List.mem_filter.mp sp.2).1
  unfold pyRange2 at hr
  rw [List.mem_range'] at hr
  rcases hr with ⟨i, hi, heq⟩
  omega

/-- The per-D-variable restriction vector returned by `d_restrict_source`
(stats.py lines 2442-2446, with the grand-interaction override of lines
2419-2422): `SS = sum((effect**2 * sourceDNarray) * prod(nonsource levels),
between axes)`, a function of the D-variable coordinate. -/
def mixedRestrictSS (shape : List ℕ) (Bscols : List ℕ) (k Bwithins Bbetweens : ℕ)
    (DMarr DNarr : (ℕ → ℕ) → ℚ) (source : ℕ) : (ℕ → ℕ) → ℚ :=
  fun idx =>
    let nonsrc := btwDims Bscols (Nat.ldiff Bbetweens source) k
    let btwAll := List.range (shape.length - 1)
    let sourceDN := if source = 2 ^ (k + 1) - 1
      then harmonicAxes shape btwAll DNarr
      else harmonicAxes shape nonsrc DNarr
    sumAxes shape btwAll
      (fun j => mixedEffect shape Bscols k Bwithins Bbetweens DMarr DNarr source j ^ 2 *
        sourceDN j * (axesCount shape nonsrc : ℚ))
      idx

/-- One D-variable entry for one subject for a source with one within
factor (the inner loops of stats.py lines 1993-2022): the sum over the
subject's between-cells of the coefficient-weighted sum over the within
levels (the between axes carry coefficient 1). -/
def dvarEntry (coeff : List ℤ) (mnsSubject : List (List ℚ)) : ℚ :=
  (mnsSubject.map (fun cellrow =>
    (List.zipWith (fun (cf : ℤ) (x : ℚ) => (cf : ℚ) * x) coeff cellrow).sum)).sum

/-! ### The complete one-factor pipeline (both branches)

For a one-factor table (subject, level, value) the engine computes one
Result.  The between branch (stats.py lines 2068-2169) works on the
collapsed per-(subject, level) table `M` (line 1843), its cell means and
counts `Marray`/`Narray` (lines 1845-1855), the grand average and effect
(lines 2113-2130, with no subsources for the minimal source), the
grand-interaction harmonic-mean override (lines 2118-2120, which always
fires here because the single source is `Nallsources-1`), and `SSw`
(lines 2084-2092).  The within branch (lines 2175-2224) builds the data
array `DA` from the raw rows (lines 1900-1917; a later duplicate
overwrites an earlier one and empty slots hold `dummyval`), the D-variable
matrix (lines 1993-2031), and the error matrices through
`Dfull_model`/`Drestrict_mean` with `subjslots = ones((Nsubjects,1))`
(line 1909), i.e. a single all-ones mask.  `LA.determinant` and `fprob`
remain collaborator parameters. -/

theorem makebin_eq_sum_map (l : List ℕ) :
    makebin l = (l.map (fun i => 2 ^ i)).sum := by
  suffices h : ∀ a : ℕ, l.foldl (fun outbin item => outbin + 2 ^ item) a =
      a + (l.map (fun i => 2 ^ i)).sum by
    simpa [makebin] using h 0
  induction l with
  | nil => intro a; simp
  | cons x xs ih =>
    intro a
    simp only [List.foldl_cons, List.map_cons, List.sum_cons, ih]
    ring

theorem subsetB_two_pow_iff (s j : ℕ) :
    subsetB (2 ^ j) s = s.testBit j := by
  rcases h : s.testBit j with _ | _
  · simp only [subsetB, beq_iff_eq]
    apply decide_eq_false
    intro hand
    have := congrArg (fun x => x.testBit j) hand
    simp [Nat.testBit_land, Nat.testBit_two_pow_self, h] at this
  · simp only [subsetB, beq_iff_eq]
    apply Nat.eq_of_testBit_eq
    intro i
    rcases Decidable.em (i = j) with hij | hij
    · subst hij; simp [Nat.testBit_land, Nat.testBit_two_pow_self, h]
    · simp [Nat.testBit_land, Nat.testBit_two_pow_of_ne (fun hh => hij hh.symm)]

theorem makelist_eq_filter_testBit (source ncols : ℕ) :
    makelist source ncols = (List.range ncols).filter (fun j => source.testBit j) := by
  unfold makelist
  congr 1
  funext j
  exact subsetB_two_pow_iff source j

theorem sum_filter_testBit (s : ℕ) : ∀ n : ℕ,
    (((List.range n).filter (fun j => s.testBit j)).map (fun i => 2 ^ i)).sum
      = s % 2 ^ n := by
  intro n
  induction n with
  | zero => simp [Nat.mod_one]
  | succ m ih =>
    rw [List.range_succ, List.filter_append, List.map_append, List.sum_append, ih]
    have hmod : s % 2 ^ (m + 1) = s % 2 ^ m + 2 ^ m * (s / 2 ^ m % 2) := by
      rw [pow_succ, Nat.mod_mul]
    rcases hb : s.testBit m with _ | _
    · have hdm : s / 2 ^ m % 2 = 0 := by
        have := Nat.testBit_to_div_mod (x := s) (i := m)
        rw [hb] at this
        have h2 := of_decide_eq_false this.symm
        omega
      simp [hb, hmod, hdm]
    · have hdm : s / 2 ^ m % 2 = 1 := by
        have := Nat.testBit_to_div_mod (x := s) (i := m)
        rw [hb] at this
        exact of_decide_eq_true this.symm
      simp [hb, hmod, hdm, Nat.mul_comm]

theorem makebin_makelist (source ncols : ℕ) (h : source < 2 ^ ncols) :
    makebin (makelist source ncols) = source := by
  rw [makelist_eq_filter_testBit, makebin_eq_sum_map, sum_filter_testBit,
    Nat.mod_eq_of_lt h]

theorem two_pow_succ_dvd_makebin (a : ℕ) (l : List ℕ)
    (hgt : ∀ x ∈ l, a < x) : 2 ^ (a + 1) ∣ makebin l := by
  rw [makebin_eq_sum_map]
  apply List.dvd_sum
  intro x hx
  rcases List.mem_map.mp hx with ⟨i, hi, rfl⟩
  exact pow_dvd_pow 2 (hgt i hi)

theorem testBit_makebin (l : List ℕ) (hl : l.Pairwise (· < ·)) (j : ℕ) :
    (makebin l).testBit j = decide (j ∈ l) := by
  induction l with
  | nil => simp [makebin]
  | cons a rest ih =>
    have hgt : ∀ x ∈ rest, a < x := fun x hx => (List.pairwise_cons.mp hl).1 x hx
    have hrest := ih (List.pairwise_cons.mp hl).2
    have hcons : makebin (a :: rest) = 2 ^ a + makebin rest := by
      rw [makebin_eq_sum_map, makebin_eq_sum_map, List.map_cons, List.sum_cons]
    rcases two_pow_succ_dvd_makebin a rest hgt with ⟨m, hm⟩
    have hsplit : makebin (a :: rest) = 2 ^ (a + 1) * m + 2 ^ a := by
      rw [hcons, hm]; ring
    rw [hsplit, Nat.testBit_mul_pow_two_add m
      (by exact Nat.pow_lt_pow_right (by norm_num) (Nat.lt_succ_self a)) j]
    rcases Nat.lt_or_ge j (a + 1) with hj | hj
    · simp only [hj, if_true]
      have hnotrest : j ∉ rest := fun hmem => absurd (hgt j hmem) (by omega)
      rcases Decidable.em (j = a) with rfl | hja
      · simp [Nat.testBit_two_pow_self]
      · simp [Nat.testBit_two_pow_of_ne (fun hh => hja hh.symm), hja, hnotrest]
    · simp only [Nat.not_lt_of_le hj, if_false]
      have hrj : (makebin rest).testBit j = m.testBit (j - (a + 1)) := by
        rw [hm, Nat.testBit_mul_pow_two]
        simp [hj]
      rw [← hrj, hrest]
      have hja : j ≠ a := by omega
      simp [hja]

theorem makelist_makebin (l : List ℕ) (ncols : ℕ)
    (hl : l.Pairwise (· < ·)) (hbound : ∀ x ∈ l, x < ncols) :
    makelist (makebin l) ncols = l := by
  rw [makelist_eq_filter_testBit]
  have hpred : ∀ j : ℕ, (makebin l).testBit j = decide (j ∈ l) :=
    testBit_makebin l hl
  have hfilter : (List.range ncols).filter (fun j => (makebin l).testBit j)
      = (List.range ncols).filter (fun j => decide (j ∈ l)) := by
    congr 1
    funext j
    exact hpred j
  rw [hfilter]
  apply List.eq_of_perm_of_sorted (r := (· ≤ ·))
  · apply (List.perm_ext_iff_of_nodup _ _).mpr
    · intro a
      simp only [List.mem_filter, List.mem_range, decide_eq_true_eq]
      exact ⟨fun h => h.2, fun h => ⟨hbound a h, h⟩⟩
    · exact (List.nodup_range ncols).filter _
    · exact hl.nodup
  · exact List.Pairwise.sublist (List.filter_sublist _) (List.pairwise_le_range ncols)
  · exact hl.imp le_of_lt

/-- C10: bitmask round-trip between `makebin` and `makelist`. -/
theorem claim_C10_makebin_makelist_roundtrip :
    (∀ source ncols : ℕ, (∀ j, source.testBit j = true → j < ncols) →
      makebin (makelist source ncols) = source) ∧
    (∀ (lst : List ℕ) (ncols : ℕ), lst.Pairwise (· < ·) →
      (∀ x ∈ lst, x < ncols) → makelist (makebin lst) ncols = lst) := by
  constructor
  · intro source ncols h
    apply makebin_makelist
    apply Nat.lt_pow_two_of_testBit
    intro i hi
    by_contra hb
    have := h i (by simpa using hb)
    omega
  · intro lst ncols h1 h2
    exact makelist_makebin lst ncols h1 h2

/-- Witness for C10 at a concrete input: `source = 21`, `ncols = 5`,
`lst = [0, 2, 4]`. -/
theorem claim_C10_makebin_makelist_roundtrip_witness :
    makebin (makelist 21 5) = 21 ∧ makelist (makebin [0, 2, 4]) 5 = [0, 2, 4] := by
  constructor
  · apply claim_C10_makebin_makelist_roundtrip.1 21 5
    intro j hj
    by_contra hb
    push_neg at hb
    have h21 : (21 : ℕ) < 2 ^ j :=
      lt_of_lt_of_le (by norm_num) (Nat.pow_le_pow_right (by norm_num) hb)
    rw [Nat.testBit_eq_false_of_lt h21] at hj
    simp at hj
  · exact claim_C10_makebin_makelist_roundtrip.2 [0, 2, 4] 5 (by decide) (by decide)

theorem subsetB_eq_true_iff (a b : ℕ) :
    subsetB a b = true ↔ ∀ i, a.testBit i = true → b.testBit i = true := by
  constructor
  · intro h i hi
    have h1 : a &&& b = a := by simpa [subsetB] using h
    have h2 := congrArg (fun x => x.testBit i) h1
    simp only [Nat.testBit_land] at h2
    rw [hi] at h2
    simpa using h2.symm
  · intro h
    simp only [subsetB, beq_iff_eq]
    apply Nat.eq_of_testBit_eq
    intro i
    simp only [Nat.testBit_land]
    rcases hb : a.testBit i with _ | _
    · simp
    · simp [h i hb]

theorem land_eq_zero_iff (a b : ℕ) :
    a &&& b = 0 ↔ ∀ i, ¬(a.testBit i = true ∧ b.testBit i = true) := by
  constructor
  · rintro h i ⟨ha, hb⟩
    have h2 := congrArg (fun x => x.testBit i) h
    simp [Nat.testBit_land, ha, hb] at h2
  · intro h
    apply Nat.eq_of_testBit_eq
    intro i
    simp only [Nat.testBit_land, Nat.zero_testBit]
    rcases ha : a.testBit i with _ | _
    · simp
    · rcases hb : b.testBit i with _ | _
      · simp
      · exact absurd ⟨ha, hb⟩ (h i)

theorem mem_pyRange2_mono {a m mbig s : ℕ} (h : s ∈ pyRange2 a m)
    (hmm : m ≤ mbig) : s ∈ pyRange2 a mbig := by
  unfold pyRange2 at h ⊢
  rw [List.mem_range'] at h ⊢
  rcases h with ⟨i, hi, rfl⟩
  exact ⟨i, by omega, rfl⟩

/-- C7: for a design with `k` factors the sources processed are exactly the
odd integers from 3 to `2^(k+1)-1` in increasing numeric order, and each
source is classified pure-between when `(source-1) AND within-bits = 0`,
pure-within when its non-subject bits are all within-bits, and mixed
otherwise. -/
theorem claim_C7_source_enumeration_and_classification (k : ℕ) :
    (∀ s : ℕ, s ∈ anovaSources k ↔ (s % 2 = 1 ∧ 3 ≤ s ∧ s ≤ 2 ^ (k + 1) - 1)) ∧
    (anovaSources k).Pairwise (· < ·) ∧
    (∀ W s : ℕ, 3 ≤ s →
      ((classifySource W s = SourceKind.between ↔ (s - 1) &&& W = 0) ∧
       (classifySource W s = SourceKind.within ↔ (s - 1) &&& W = s - 1) ∧
       (classifySource W s = SourceKind.mixed ↔
         (¬(s - 1) &&& W = 0 ∧ ¬(s - 1) &&& W = s - 1)))) := by
  refine ⟨?_, ?_, ?_⟩
  · intro s
    have hP : 1 ≤ 2 ^ k := Nat.one_le_two_pow
    have h2 : 2 ^ (k + 1) = 2 * 2 ^ k := by rw [pow_succ]; ring
    unfold anovaSources pyRange2
    rw [List.mem_range']
    constructor
    · rintro ⟨i, hi, rfl⟩
      omega
    · rintro ⟨hodd, h3, hle⟩
      exact ⟨(s - 3) / 2, by omega, by omega⟩
  · exact List.pairwise_lt_range' _ _ 2 (by norm_num)
  · intro W s hs
    have hne : s - 1 ≠ 0 := by omega
    rcases Decidable.em ((s - 1) &&& W = 0) with h0 | h0
    · have hcl : classifySource W s = SourceKind.between := by
        simp [classifySource, h0]
      have hw : ¬(s - 1) &&& W = s - 1 := by
        intro hc; rw [h0] at hc; omega
      refine ⟨⟨fun _ => h0, fun _ => hcl⟩, ⟨?_, ?_⟩, ⟨?_, ?_⟩⟩
      · intro h; rw [hcl] at h; cases h
      · intro h; exact absurd h hw
      · intro h; rw [hcl] at h; cases h
      · rintro ⟨ha, _⟩; exact absurd h0 ha
    · rcases hsub : subsetB (s - 1) W with _ | _
      · have hcl : classifySource W s = SourceKind.mixed := by
          simp [classifySource, h0, hsub]
      -- mixed case: subset fails
        have hnsub : ¬(s - 1) &&& W = s - 1 := by
          intro hc
          have h1 : subsetB (s - 1) W = true := by simp [subsetB, hc]
          rw [hsub] at h1
          cases h1
        refine ⟨⟨?_, ?_⟩, ⟨?_, ?_⟩, ⟨fun _ => ⟨h0, hnsub⟩, fun _ => hcl⟩⟩
        · intro h; rw [hcl] at h; cases h
        · intro h; exact absurd h h0
        · intro h; rw [hcl] at h; cases h
        · intro h; exact absurd h hnsub
      · have hsubeq : (s - 1) &&& W = s - 1 := by simpa [subsetB] using hsub
        have hcl : classifySource W s = SourceKind.within := by
          simp [classifySource, h0, hsub]
        refine ⟨⟨?_, ?_⟩, ⟨fun _ => hsubeq, fun _ => hcl⟩, ⟨?_, ?_⟩⟩
        · intro h; rw [hcl] at h; cases h
        · intro h; exact absurd h h0
        · intro h; rw [hcl] at h; cases h
        · rintro ⟨_, hb⟩; exact absurd hsubeq hb

/-- Witness for C7 in a two-factor design: 3 is enumerated, and source 5 is
classified pure-between when the within-bit mask is 2. -/
theorem claim_C7_source_enumeration_and_classification_witness :
    (3 ∈ anovaSources 2) ∧ classifySource 2 5 = SourceKind.between := by
  constructor
  · exact ((claim_C7_source_enumeration_and_classification 2).1 3).mpr (by decide)
  · exact ((claim_C7_source_enumeration_and_classification 2).2.2 2 5
      (by norm_num)).1.mpr (by decide)

/-- C9: every memo lookup performed by the pure-between restriction loop
(stats.py lines 2124-2128) or the mixed restriction loop
(`d_restrict_source`, lines 2426-2433) finds a source that was already
appended to `alleffsources` by an earlier iteration of the main loop, so
the missing-memo fatal path (`list.index` raising) is unreachable. -/
theorem claim_C9_memo_lookups_succeed (W source : ℕ) :
    (classifySource W source = SourceKind.between →
      ∀ sub ∈ neededSubsBetween source, sub ∈ memoSources W source) ∧
    (classifySource W source = SourceKind.mixed →
      ∀ sub ∈ neededSubsMixed W source, sub ∈ memoSources W source) := by
  constructor
  · intro hcl sub hmem
    have h0 : (source - 1) &&& W = 0 := by
      by_contra h0
      rcases hsub : subsetB (source - 1) W with _ | _ <;>
        simp [classifySource, h0, hsub] at hcl
    rw [neededSubsBetween, List.mem_filter] at hmem
    rcases hmem with ⟨hrange, hcond⟩
    rw [memoSources, List.mem_filter]
    refine ⟨hrange, ?_⟩
    have hz : (sub - 1) &&& W = 0 := by
      rw [land_eq_zero_iff]
      rintro i ⟨ha, hb⟩
      have hsrc := (subsetB_eq_true_iff _ _).mp hcond i ha
      exact (land_eq_zero_iff _ _).mp h0 i ⟨hsrc, hb⟩
    simp [appendsEffect, hz]
  · intro _ sub hmem
    rw [neededSubsMixed, List.mem_filter] at hmem
    rcases hmem with ⟨hrange, hcond⟩
    simp only [Bool.and_eq_true, beq_iff_eq, Bool.not_eq_eq_eq_not,
      Bool.not_true, decide_eq_false_iff_not] at hcond
    rcases hcond with ⟨⟨_, heqW⟩, hneq⟩
    rw [memoSources, List.mem_filter]
    refine ⟨mem_pyRange2_mono hrange (by omega), ?_⟩
    have hnot : ¬ subsetB (sub - 1) W = true := by
      intro habs
      have h1 : (sub - 1) &&& W = sub - 1 := by simpa [subsetB] using habs
      rw [heqW] at h1
      have h2 : (sub - 1 == (source - 1) &&& W) = true := beq_iff_eq.mpr h1.symm
      rw [hneq] at h2
      cases h2
    simp [appendsEffect, hnot]

/-- Witness for C9: in a three-factor design with within mask 4, the mixed
source 15 finds its needed subsource 7 in the memo, and with within mask 0
the pure-between source 7 finds subsource 5. -/
theorem claim_C9_memo_lookups_succeed_witness :
    (5 ∈ memoSources 0 7) ∧ (7 ∈ memoSources 4 15) := by
  constructor
  · exact (claim_C9_memo_lookups_succeed 0 7).1 (by decide) 5 (by decide)
  · exact (claim_C9_memo_lookups_succeed 4 15).2 (by decide) 7 (by decide)

theorem findwithin_getD (data : List (List ℤ)) (col : ℕ)
    (h1 : 1 ≤ col) (h2 : col ≤ (data.headD []).length - 2) :
    (findwithin data).getD (col - 1) 0 =
      (if (uniqueL (colex (linexand data col ((uniqueL (colex data 1)).headD 0)) 0)).length <
          (linexand data col ((uniqueL (colex data 1)).headD 0)).length then 1 else 0) := by
  unfold findwithin
  have hlen : col - 1 < ((List.range' 1 ((data.headD []).length - 2)).map (fun col =>
      let rows := linexand data col ((uniqueL (colex data 1)).headD 0)
      if (uniqueL (colex rows 0)).length < rows.length then 1 else 0)).length := by
    rw [List.length_map, List.length_range']
    omega
  rw [List.getD_eq_getElem _ _ hlen, List.getElem_map]
  have hlr : col - 1 < (List.range' 1 ((data.headD []).length - 2)).length := by
    rw [List.length_range']
    omega
  have hr : (List.range' 1 ((data.headD []).length - 2))[col - 1] = 1 + (col - 1) :=
    List.getElem_range'_1 (col - 1) hlr
  rw [hr]
  have : 1 + (col - 1) = col := by omega
  rw [this]

/-- C6: the Design Classifier flags factor `col` as within-subjects (1) iff,
after slicing the rows to the classifier's reference level, the slice
contains fewer distinct subject identifiers than rows; otherwise it flags
the factor as between-subjects (0). -/
theorem claim_C6_within_classification (data : List (List ℤ)) (col : ℕ)
    (h1 : 1 ≤ col) (h2 : col ≤ (data.headD []).length - 2) :
    ((findwithin data).getD (col - 1) 0 = 1 ↔
      (uniqueL (colex (linexand data col ((uniqueL (colex data 1)).headD 0)) 0)).length <
        (linexand data col ((uniqueL (colex data 1)).headD 0)).length) ∧
    ((findwithin data).getD (col - 1) 0 = 0 ↔
      ¬ (uniqueL (colex (linexand data col ((uniqueL (colex data 1)).headD 0)) 0)).length <
        (linexand data col ((uniqueL (colex data 1)).headD 0)).length) := by
  rw [findwithin_getD data col h1 h2]
  constructor
  · split
    · next h => simpa using h
    · next h => simpa using h
  · split
    · next h => simpa using h
    · next h => simpa using h

/-- Witness for C6: in `permTableA` the slice at the reference level 10 has
1 distinct subject over 2 rows, so the factor is flagged within-subjects. -/
theorem claim_C6_within_classification_witness :
    (findwithin permTableA).getD 0 0 = 1 := by
  exact (claim_C6_within_classification permTableA 1 (le_refl 1) (by decide)).1.mpr
    (by decide)

theorem makelist_odd_cons (source k : ℕ) (hodd : source % 2 = 1) :
    makelist source (k + 1) = 0 :: makelist (source - 1) (k + 1) := by
  rw [makelist_eq_filter_testBit, makelist_eq_filter_testBit, List.range_succ_eq_map,
    List.filter_cons, List.filter_cons]
  have h0 : source.testBit 0 = true := by
    rw [Nat.testBit_to_div_mod]
    simpa using hodd
  have h0e : (source - 1).testBit 0 = false := by
    rw [Nat.testBit_to_div_mod]
    simp only [pow_zero, Nat.div_one, decide_eq_false_iff_not]
    omega
  simp only [h0, h0e, if_true, if_false, Bool.false_eq_true]
  congr 1
  apply List.filter_congr
  intro x hx
  rcases List.mem_map.mp hx with ⟨j, _, rfl⟩
  show source.testBit (j + 1) = (source - 1).testBit (j + 1)
  rw [Nat.testBit_add_one, Nat.testBit_add_one]
  have hdiv : source / 2 = (source - 1) / 2 := by omega
  rw [hdiv]

theorem dfnumWithin_eq_dfnumBetween (Nlevels : List ℤ) (k source : ℕ)
    (hodd : source % 2 = 1) :
    dfnumWithin Nlevels k source = dfnumBetween Nlevels k source := by
  unfold dfnumWithin dfnumBetween
  rw [makelist_odd_cons source k hodd]
  simp

theorem prodBNs_eq (Nlevels : List ℤ) (Bscols : List ℕ) :
    prodBNs Nlevels Bscols = ((Bscols.drop 1).map (fun c => Nlevels.getD c 0)).prod := by
  unfold prodBNs
  split
  · next h => rw [h]; simp
  · rfl

/-- C3: for a univariate source, the pure-between branch uses
`dfnum = prod (levels-1)` over the source factors and
`dfden = Nsubjects - prod(between-level-counts)`; the pure-within branch
uses the analogous `dfnum` over the source's factors (despite computing it
from `makelist(source,...)` with the subject entry dropped) and
`dfden = Nsubjects - prod(between-level-counts) - dfnum + 1`; both use
`F = (SS/dfnum)/(SSerror/dfden)`, with `F = 0` when the error mean square
is 0. -/
theorem claim_C3_univariate_dfs_and_F (Nlevels : List ℤ) (Bscols : List ℕ)
    (Nsubjects : ℤ) (Nfactors source : ℕ) (hodd : source % 2 = 1) (SS SSw : ℚ) :
    (dfnumBetween Nlevels Nfactors source =
        ((makelist (source - 1) (Nfactors + 1)).map (fun c => Nlevels.getD c 0 - 1)).prod ∧
      dfdenBetween Nsubjects Nlevels Bscols =
        Nsubjects - ((Bscols.drop 1).map (fun c => Nlevels.getD c 0)).prod) ∧
    (dfnumWithin Nlevels Nfactors source =
        ((makelist (source - 1) (Nfactors + 1)).map (fun c => Nlevels.getD c 0 - 1)).prod ∧
      dfdenWithin Nsubjects Nlevels Bscols Nfactors source =
        Nsubjects - ((Bscols.drop 1).map (fun c => Nlevels.getD c 0)).prod
          - dfnumWithin Nlevels Nfactors source + 1) ∧
    (∀ dfnum dfden : ℤ,
      (SSw / (dfden : ℚ) ≠ 0 →
        univariateF SS SSw dfnum dfden = (SS / (dfnum : ℚ)) / (SSw / (dfden : ℚ))) ∧
      (SSw / (dfden : ℚ) = 0 → univariateF SS SSw dfnum dfden = 0)) := by
  refine ⟨⟨rfl, ?_⟩, ⟨?_, ?_⟩, ?_⟩
  · rw [dfdenBetween, prodBNs_eq]
  · rw [dfnumWithin_eq_dfnumBetween Nlevels Nfactors source hodd]
    rfl
  · rw [dfdenWithin, prodBNs_eq]
  · intro dfnum dfden
    constructor
    · intro h
      simp [univariateF, h]
    · intro h
      simp [univariateF, h]

/-- Witness for C3: the two-within-factor source 7 of a design with levels
`[3,2,2]`, and the F formula at `SS = 4`, `SSw = 2`, `dfnum = dfden = 1`. -/
theorem claim_C3_univariate_dfs_and_F_witness :
    dfnumWithin [(3 : ℤ), 2, 2] 2 7 =
      ((makelist 6 3).map (fun c => [(3 : ℤ), 2, 2].getD c 0 - 1)).prod ∧
    univariateF 4 2 1 1 = (4 / ((1 : ℤ) : ℚ)) / (2 / ((1 : ℤ) : ℚ)) := by
  constructor
  · exact ((claim_C3_univariate_dfs_and_F [(3 : ℤ), 2, 2] [0, 1] 0 2 7
      (by norm_num) 4 2).2.1).1
  · exact ((claim_C3_univariate_dfs_and_F [(3 : ℤ), 2, 2] [0, 1] 0 2 7
      (by norm_num) 4 2).2.2 1 1).1 (by norm_num)

/-- C2: the mixed-source statistic uses `p` = number of D-variable columns,
`k` = product of between-level counts, `m = Nsubjects - 1 - (p+k)/2`,
`s = sqrt(((p(k-1))^2 - 4)/(p^2 + (k-1)^2 - 5))` with `s = 1` when that
denominator is zero, `dfden = m*s - dfnum/2 + 1`, and
`F = ((1 - L^(1/s))/L^(1/s)) * (dfden/dfnum)` with
`L = det(full)/det(restricted)`. -/
theorem claim_C2_rao_wilks_formulas (sqrtFn : ℚ → ℚ) (powFn : ℚ → ℚ → ℚ)
    (workd : List (List ℚ)) (Nlevels : List ℤ) (Bscols : List ℕ)
    (Nsubjects dfnum detEf detEr : ℚ) :
    (∀ p k : ℚ,
      (p ^ 2 + (k - 1) ^ 2 - 5 = 0 → raoS sqrtFn p k = 1) ∧
      (p ^ 2 + (k - 1) ^ 2 - 5 ≠ 0 →
        raoS sqrtFn p k = sqrtFn (((p * (k - 1)) ^ 2 - 4) / (p ^ 2 + (k - 1) ^ 2 - 5))) ∧
      raoDfden sqrtFn p k Nsubjects dfnum =
        (Nsubjects - 1 - (p + k) / 2) * raoS sqrtFn p k - dfnum / 2 + 1 ∧
      (detEr ≠ 0 →
        wilksRaoF sqrtFn powFn p k Nsubjects dfnum detEf detEr =
          ((1 - powFn (detEf / detEr) (1 / raoS sqrtFn p k)) /
              powFn (detEf / detEr) (1 / raoS sqrtFn p k)) *
            (raoDfden sqrtFn p k Nsubjects dfnum / dfnum)) ∧
      (detEr = 0 → wilksRaoF sqrtFn powFn p k Nsubjects dfnum detEf detEr = 0)) ∧
    mixedSourceF sqrtFn powFn workd Nlevels Bscols Nsubjects dfnum detEf detEr =
      wilksRaoF sqrtFn powFn ((workd.headD []).length : ℚ)
        ((prodBNs Nlevels Bscols : ℤ) : ℚ) Nsubjects dfnum detEf detEr := by
  refine ⟨fun p k => ⟨?_, ?_, rfl, ?_, ?_⟩, rfl⟩
  · intro h
    simp [raoS, raoDen, h]
  · intro h
    simp [raoS, raoDen, h]
  · intro h
    simp [wilksRaoF, h]
  · intro h
    simp [wilksRaoF, h]

/-- Witness for C2 at `p = 1`, `k = 2`, `Nsubjects = 5`, `dfnum = 1`,
`det(ef) = 1`, `det(er) = 2`, with concrete collaborator functions. -/
theorem claim_C2_rao_wilks_formulas_witness :
    wilksRaoF (fun x => x) (fun a _ => a) 1 2 5 1 1 2 =
      ((1 - (fun a _ => a) ((1 : ℚ) / 2) (1 / raoS (fun x => x) 1 2)) /
          (fun a _ => a) ((1 : ℚ) / 2) (1 / raoS (fun x => x) 1 2)) *
        (raoDfden (fun x => x) 1 2 5 1 / 1) := by
  exact ((claim_C2_rao_wilks_formulas (fun x => x) (fun a _ => a) [[1]] [2] [0]
    5 1 1 2).1 1 2).2.2.2.1 (by norm_num)

/-- C5: the contrast-coefficient table serves every within-factor level
count from 1 through 10 (all demanded lookups succeed), and a within
factor with 11 levels fails with the design-limit error of stats.py
line 2011. -/
theorem claim_C5_contrast_table_level_limit :
    (∀ L : ℕ, 1 ≤ L → L ≤ 10 → (contrastRowsFor L).isOk = true) ∧
    contrastRowsFor 11 =
      Except.error "anova() can only handle up to 10 levels on a within-subject factors" := by
  constructor
  · intro L h1 h10
    interval_cases L <;> decide
  · rfl

/-- Witness for C5 at the boundary level count 10. -/
theorem claim_C5_contrast_table_level_limit_witness :
    (contrastRowsFor 10).isOk = true :=
  claim_C5_contrast_table_level_limit.1 10 (by norm_num) (by norm_num)

theorem zipWith_getD_zero (f : ℚ → ℚ → ℚ) (hf : f 0 0 = 0) (as bs : List ℚ)
    (hlen : as.length = bs.length) (s : ℕ) :
    (List.zipWith f as bs).getD s 0 = f (as.getD s 0) (bs.getD s 0) := by
  rcases Nat.lt_or_ge s as.length with hs | hs
  · have hzl : s < (List.zipWith f as bs).length := by
      rw [List.length_zipWith]; omega
    rw [List.getD_eq_getElem _ _ hzl, List.getElem_zipWith,
      List.getD_eq_getElem _ _ hs, List.getD_eq_getElem _ _ (by omega)]
  · rw [List.getD_eq_default _ _ (by rw [List.length_zipWith]; omega),
      List.getD_eq_default _ _ hs, List.getD_eq_default _ _ (by omega), hf]

theorem getD_zipWith_row (f : ℚ → ℚ → ℚ) (A B : List (List ℚ)) (i : ℕ)
    (hiA : i < A.length) (hiB : i < B.length) :
    (List.zipWith (List.zipWith f) A B).getD i [] =
      List.zipWith f (A.getD i []) (B.getD i []) := by
  rw [List.getD_eq_getElem _ _ (by rw [List.length_zipWith]; omega),
    List.getElem_zipWith, List.getD_eq_getElem _ _ hiA, List.getD_eq_getElem _ _ hiB]

theorem entryD_zipWith (f : ℚ → ℚ → ℚ) (hf : f 0 0 = 0) (A B : List (List ℚ))
    (q n : ℕ) (hA : GoodMat A q n) (hB : GoodMat B q n) (i j : ℕ) :
    entryD (List.zipWith (List.zipWith f) A B) i j = f (entryD A i j) (entryD B i j) := by
  unfold entryD
  rcases Nat.lt_or_ge i q with hi | hi
  · rw [getD_zipWith_row f A B i (by rw [hA.1]; omega) (by rw [hB.1]; omega)]
    exact zipWith_getD_zero f hf _ _ (by rw [hA.2 i hi, hB.2 i hi]) j
  · have hrow : (List.zipWith (List.zipWith f) A B).getD i [] = [] :=
      List.getD_eq_default _ _ (by rw [List.length_zipWith, hA.1, hB.1]; omega)
    have hrA : A.getD i [] = [] := List.getD_eq_default _ _ (by rw [hA.1]; omega)
    have hrB : B.getD i [] = [] := List.getD_eq_default _ _ (by rw [hB.1]; omega)
    rw [hrow, hrA, hrB]
    simpa using hf.symm

theorem getD_outerM_row (v mask : List ℚ) (i : ℕ) (hi : i < v.length) :
    (outerM v mask).getD i [] = mask.map (fun mk => v.getD i 0 * mk) := by
  unfold outerM
  rw [List.getD_eq_getElem _ _ (by rw [List.length_map]; omega), List.getElem_map,
    List.getD_eq_getElem _ _ hi]

theorem entryD_outerM (v mask : List ℚ) (i j : ℕ) :
    entryD (outerM v mask) i j = v.getD i 0 * mask.getD j 0 := by
  unfold entryD
  rcases Nat.lt_or_ge i v.length with hi | hi
  · rw [getD_outerM_row v mask i hi]
    rcases Nat.lt_or_ge j mask.length with hj | hj
    · rw [List.getD_eq_getElem _ _ (by rw [List.length_map]; omega), List.getElem_map,
        List.getD_eq_getElem _ _ hj]
    · rw [List.getD_eq_default _ _ (by rw [List.length_map]; omega),
        List.getD_eq_default _ _ hj, mul_zero]
  · have hrow : (outerM v mask).getD i [] = [] :=
      List.getD_eq_default _ _ (by simp only [outerM, List.length_map]; omega)
    have hv : v.getD i 0 = 0 := List.getD_eq_default _ _ hi
    rw [hrow, hv]
    simp

theorem goodMat_outerM (v mask : List ℚ) (n : ℕ) (hm : mask.length = n) :
    GoodMat (outerM v mask) v.length n := by
  constructor
  · simp [outerM]
  · intro i hi
    rw [getD_outerM_row v mask i hi, List.length_map, hm]

theorem goodMat_transposeM (w : List (List ℚ)) :
    GoodMat (transposeM w) (transposeM w).length w.length := by
  constructor
  · rfl
  · intro i hi
    unfold transposeM at hi ⊢
    rw [List.length_map, List.length_range] at hi
    rw [List.getD_eq_getElem _ _ (by rw [List.length_map, List.length_range]; omega),
      List.getElem_map]
    simp

theorem goodMat_step (tw : List (List ℚ)) (n : ℕ)
    (E : List (List ℚ)) (hE : GoodMat E tw.length n) (mask : List ℚ)
    (hm : mask.length = n) :
    GoodMat (matSub E (outerM (groupMeans tw mask) mask)) tw.length n := by
  have hgm : (groupMeans tw mask).length = tw.length := by simp [groupMeans]
  have hout : GoodMat (outerM (groupMeans tw mask) mask) tw.length n := by
    have h := goodMat_outerM (groupMeans tw mask) mask n hm
    rwa [hgm] at h
  constructor
  · rw [matSub, List.length_zipWith, hE.1, hout.1]; omega
  · intro i hi
    rw [matSub, getD_zipWith_row _ E _ i (by rw [hE.1]; omega) (by rw [hout.1]; omega),
      List.length_zipWith, hE.2 i hi, hout.2 i hi]
    omega

theorem subtr_fold_entry (tw : List (List ℚ)) (n : ℕ) :
    ∀ (cells : List (List ℚ)) (E : List (List ℚ)),
      GoodMat E tw.length n → (∀ m ∈ cells, m.length = n) →
      ∀ v s : ℕ,
        entryD (cells.foldl
          (fun errors mask => matSub errors (outerM (groupMeans tw mask) mask)) E) v s
          = entryD E v s -
              (cells.map (fun m => (groupMeans tw m).getD v 0 * m.getD s 0)).sum := by
  intro cells
  induction cells with
  | nil => intro E _ _ v s; simp
  | cons m rest ih =>
    intro E hE hm v s
    rw [List.foldl_cons, List.map_cons, List.sum_cons]
    have hmlen : m.length = n := hm m (List.mem_cons_self m rest)
    have hstep : GoodMat (matSub E (outerM (groupMeans tw m) m)) tw.length n :=
      goodMat_step tw n E hE m hmlen
    rw [ih (matSub E (outerM (groupMeans tw m) m)) hstep
      (fun x hx => hm x (List.mem_cons_of_mem m hx)) v s]
    have hgm : (groupMeans tw m).length = tw.length := by simp [groupMeans]
    have hout : GoodMat (outerM (groupMeans tw m) m) tw.length n := by
      have h := goodMat_outerM (groupMeans tw m) m n hmlen
      rwa [hgm] at h
    have hentry : entryD (matSub E (outerM (groupMeans tw m) m)) v s =
        entryD E v s - entryD (outerM (groupMeans tw m) m) v s :=
      entryD_zipWith (fun a b => a - b) (by norm_num) E _ tw.length n hE hout v s
    rw [hentry, entryD_outerM]
    ring

theorem subtr_cellmeans_entry (workd cells : List (List ℚ))
    (hm : ∀ m ∈ cells, m.length = workd.length) (v s : ℕ) :
    entryD (subtr_cellmeans workd cells) v s =
      entryD (transposeM workd) v s -
        (cells.map (fun m => (groupMeans (transposeM workd) m).getD v 0 * m.getD s 0)).sum :=
  subtr_fold_entry (transposeM workd) workd.length cells (transposeM workd)
    (goodMat_transposeM workd) hm v s

theorem sum_zero_of_mask_entries (l : List ℚ) (h01 : ∀ x ∈ l, x = 0 ∨ x = 1)
    (hsum : l.sum = 0) : ∀ x ∈ l, x = 0 := by
  induction l with
  | nil => simp
  | cons a rest ih =>
    rw [List.sum_cons] at hsum
    have hrest_nonneg : 0 ≤ rest.sum := by
      apply List.sum_nonneg
      intro x hx
      rcases h01 x (List.mem_cons_of_mem a hx) with h | h <;> simp [h]
    have ha0 : a = 0 := by
      rcases h01 a (List.mem_cons_self a rest) with h | h
      · exact h
      · exfalso; rw [h] at hsum; linarith
    intro x hx
    rcases List.mem_cons.mp hx with rfl | hx2
    · exact ha0
    · exact ih (fun y hy => h01 y (List.mem_cons_of_mem a hy))
        (by rw [ha0] at hsum; linarith) x hx2

theorem sum_pick_mask (g : List ℚ → ℚ) (s : ℕ) (cells : List (List ℚ))
    (h01 : ∀ m ∈ cells, m.getD s 0 = 0 ∨ m.getD s 0 = 1)
    (hsum : (cells.map (fun m => m.getD s 0)).sum = 1)
    (c : List ℚ) (hc : c ∈ cells) (hc1 : c.getD s 0 = 1) :
    (cells.map (fun m => g m * m.getD s 0)).sum = g c := by
  induction cells with
  | nil => cases hc
  | cons m rest ih =>
    rw [List.map_cons, List.sum_cons]
    rw [List.map_cons, List.sum_cons] at hsum
    rcases h01 m (List.mem_cons_self m rest) with hm0 | hm1
    · have hc_rest : c ∈ rest := by
        rcases List.mem_cons.mp hc with rfl | h
        · rw [hc1] at hm0; norm_num at hm0
        · exact h
      rw [hm0, mul_zero, zero_add]
      exact ih (fun x hx => h01 x (List.mem_cons_of_mem m hx))
        (by rw [hm0] at hsum; linarith) hc_rest
    · have hrest0 : (rest.map (fun m2 => m2.getD s 0)).sum = 0 := by
        rw [hm1] at hsum; linarith
      have hall0 : ∀ x ∈ rest.map (fun m2 => m2.getD s 0), x = 0 := by
        apply sum_zero_of_mask_entries
        · intro x hx
          rcases List.mem_map.mp hx with ⟨m2, hm2, rfl⟩
          exact h01 m2 (List.mem_cons_of_mem m hm2)
        · exact hrest0
      have hrest_prod0 : (rest.map (fun m2 => g m2 * m2.getD s 0)).sum = 0 := by
        apply List.sum_eq_zero
        intro x hx
        rcases List.mem_map.mp hx with ⟨m2, hm2, rfl⟩
        have h2 : m2.getD s 0 = 0 := hall0 _ (List.mem_map_of_mem _ hm2)
        rw [h2, mul_zero]
      rw [hm1, mul_one, hrest_prod0, add_zero]
      rcases List.mem_cons.mp hc with rfl | hcr
      · rfl
      · exfalso
        have h2 : c.getD s 0 = 0 := hall0 _ (List.mem_map_of_mem _ hcr)
        rw [hc1] at h2
        norm_num at h2

theorem entryD_multivar_sscalc (E : List (List ℚ)) (i j : ℕ) :
    entryD (multivar_sscalc E) i j = dotQ (E.getD i []) (E.getD j []) := by
  unfold entryD multivar_sscalc
  rcases Nat.lt_or_ge i E.length with hi | hi
  · have hrowi : (E.map (fun ri => E.map (fun rj => dotQ ri rj))).getD i [] =
        E.map (fun rj => dotQ (E.getD i []) rj) := by
      rw [List.getD_eq_getElem _ _ (by rw [List.length_map]; omega), List.getElem_map,
        List.getD_eq_getElem _ _ hi]
    rw [hrowi]
    rcases Nat.lt_or_ge j E.length with hj | hj
    · rw [List.getD_eq_getElem _ _ (by rw [List.length_map]; omega), List.getElem_map,
        List.getD_eq_getElem _ _ hj]
    · have h1 : (E.map (fun rj => dotQ (E.getD i []) rj)).getD j 0 = 0 :=
        List.getD_eq_default _ _ (by rw [List.length_map]; omega)
      have h2 : E.getD j [] = [] := List.getD_eq_default _ _ hj
      rw [h1, h2]
      simp [dotQ]
  · have hrow : (E.map (fun ri => E.map (fun rj => dotQ ri rj))).getD i [] = [] :=
      List.getD_eq_default _ _ (by rw [List.length_map]; omega)
    have h2 : E.getD i [] = [] := List.getD_eq_default _ _ hi
    rw [hrow, h2]
    simp [dotQ]

/-- C1: for every within-containing source the code computes
`SS = det(restricted error) - det(full error)`.  The full-model error is the
cross-product matrix of the D-variable residuals obtained by subtracting
each subject's own between-cell mean (given that the cell masks are 0/1 and
partition the subjects); the restricted error is `Drestrict_mean` (the
residuals with the D-variable grand means added back) for a pure-within
source and `restriction + full error` for a mixed source. -/
theorem claim_C1_within_SS_det_difference
    (det : List (List ℚ) → ℚ) (purewithin : Bool) (restrict : List (List ℚ))
    (workd cells : List (List ℚ)) (cellOf : ℕ → List ℚ)
    (hmask01 : ∀ m ∈ cells, ∀ s : ℕ, m.getD s 0 = 0 ∨ m.getD s 0 = 1)
    (hmasklen : ∀ m ∈ cells, m.length = workd.length)
    (hpart : ∀ s, s < workd.length → (cells.map (fun m => m.getD s 0)).sum = 1)
    (hcellmem : ∀ s, s < workd.length → cellOf s ∈ cells)
    (hcellone : ∀ s, s < workd.length → (cellOf s).getD s 0 = 1) :
    (∀ v s, s < workd.length →
      entryD (subtr_cellmeans workd cells) v s =
        entryD (transposeM workd) v s -
          (groupMeans (transposeM workd) (cellOf s)).getD v 0) ∧
    (∀ i j, entryD (d_full_model workd cells) i j =
      dotQ ((subtr_cellmeans workd cells).getD i [])
        ((subtr_cellmeans workd cells).getD j [])) ∧
    withinBranchSS det purewithin restrict workd cells =
      (det (if purewithin then d_restrict_mean workd cells
            else matAdd restrict (d_full_model workd cells)) -
         det (d_full_model workd cells),
       det (d_full_model workd cells)) := by
  refine ⟨?_, ?_, ?_⟩
  · intro v s hs
    rw [subtr_cellmeans_entry workd cells hmasklen v s]
    congr 1
    exact sum_pick_mask (fun m => (groupMeans (transposeM workd) m).getD v 0) s cells
      (fun m hm => hmask01 m hm s) (hpart s hs) (cellOf s) (hcellmem s hs) (hcellone s hs)
  · intro i j
    exact entryD_multivar_sscalc (subtr_cellmeans workd cells) i j
  · rfl

/-- Witness for C1: two subjects with D-values 1 and 3 in a single
between-cell; the residual of subject 0 is its value minus the cell
mean 2. -/
theorem claim_C1_within_SS_det_difference_witness :
    entryD (subtr_cellmeans [[1], [3]] [[1, 1]]) 0 0 =
      entryD (transposeM [[1], [3]]) 0 0 -
        (groupMeans (transposeM [[1], [3]]) [1, 1]).getD 0 0 := by
  have h := claim_C1_within_SS_det_difference (fun M => entryD M 0 0) false [[5]]
    [[1], [3]] [[1, 1]] (fun _ => [1, 1])
    (by
      intro m hm s
      rw [List.mem_singleton] at hm
      subst hm
      rcases s with _ | s
      · right; rfl
      rcases s with _ | s
      · right; rfl
      · left; rfl)
    (by decide)
    (by
      intro s hs
      norm_num at hs
      interval_cases s <;> simp)
    (by intro s _; simp)
    (by
      intro s hs
      norm_num at hs
      interval_cases s <;> simp)
  exact h.1 0 0 (by norm_num)

theorem tuplesOn_length (shape : List ℕ) : ∀ dims : List ℕ,
    (tuplesOn shape dims).length = axesCount shape dims := by
  intro dims
  induction dims with
  | nil => simp [tuplesOn, axesCount]
  | cons d ds ih =>
    rw [tuplesOn, List.length_flatMap, axesCount, List.map_cons, List.prod_cons]
    have hmap : (tuplesOn shape ds).map
        (Function.comp List.length (fun t => (List.range (shape.getD d 1)).map
          (fun vcoord => fun ax => if ax = d then vcoord else t ax))) =
        (tuplesOn shape ds).map (fun _ => shape.getD d 1) := by
      apply List.map_congr_left
      intro t _
      simp [Function.comp]
    rw [hmap, List.map_const', List.sum_replicate, smul_eq_mul, ih, axesCount]
    ring

theorem sumAxes_const (shape : List ℕ) (axes : List ℕ) (c : ℚ) (idx : ℕ → ℕ) :
    sumAxes shape axes (fun _ => c) idx = (axesCount shape axes : ℚ) * c := by
  show ((tuplesOn shape axes).map (fun _ => c)).sum = (axesCount shape axes : ℚ) * c
  rw [List.map_const', List.sum_replicate, tuplesOn_length, nsmul_eq_mul]

theorem axesCount_pos (shape : List ℕ) (hpos : ∀ d, 0 < shape.getD d 1)
    (axes : List ℕ) : 0 < axesCount shape axes := by
  unfold axesCount
  apply List.prod_pos
  intro x hx
  rcases List.mem_map.mp hx with ⟨d, _, rfl⟩
  exact hpos d

theorem meanAxes_const_fun (shape : List ℕ) (hpos : ∀ d, 0 < shape.getD d 1)
    (axes : List ℕ) (c : ℚ) : meanAxes shape axes (fun _ => c) = fun _ => c := by
  funext idx
  unfold meanAxes
  rw [sumAxes_const]
  have h : ((axesCount shape axes : ℕ) : ℚ) ≠ 0 := by
    have hp := axesCount_pos shape hpos axes
    exact_mod_cast (by omega : axesCount shape axes ≠ 0)
  rw [mul_comm, mul_div_assoc, div_self h, mul_one]

theorem harmonicAxes_const_fun (n : ℚ) (_hn : n ≠ 0) (shape : List ℕ)
    (hpos : ∀ d, 0 < shape.getD d 1) (axes : List ℕ) :
    harmonicAxes shape axes (fun _ => n) = fun _ => n := by
  funext idx
  unfold harmonicAxes
  have hstep : sumAxes shape axes (fun j => 1 / (fun _ : ℕ → ℕ => n) j) idx =
      (axesCount shape axes : ℚ) * (1 / n) := sumAxes_const shape axes (1 / n) idx
  rw [hstep]
  have h : ((axesCount shape axes : ℕ) : ℚ) ≠ 0 := by
    have hp := axesCount_pos shape hpos axes
    exact_mod_cast (by omega : axesCount shape axes ≠ 0)
  field_simp

theorem betweenEffect_const_zero (shape Bscols : List ℕ) (k Bbetweens : ℕ)
    (c n : ℚ) (hn : n ≠ 0) (hpos : ∀ d, 0 < shape.getD d 1) :
    ∀ source idx,
      betweenEffect shape Bscols k Bbetweens (fun _ => c) (fun _ => n) source idx = 0 := by
  intro source
  induction source using Nat.strong_induction_on with
  | _ source ih =>
    intro idx
    rw [betweenEffect]
    have hsub : (((pyRange2 3 source).filter
        (fun sub => subsetB (sub - 1) (source - 1))).attach.map
        (fun sp => betweenEffect shape Bscols k Bbetweens (fun _ => c) (fun _ => n)
          sp.1 idx)).sum = 0 := by
      apply List.sum_eq_zero
      intro x hx
      rcases List.mem_map.mp hx with ⟨sp, _, rfl⟩
      rcases List.mem_filter.mp sp.2 with ⟨hr, _⟩
      unfold pyRange2 at hr
      rw [List.mem_range'] at hr
      rcases hr with ⟨i, hi, heq⟩
      exact ih sp.1 (by omega) idx
    simp only [meanAxes_const_fun shape hpos, harmonicAxes_const_fun n hn shape hpos,
      sumAxes_const, hsub]
    have hcount : ((axesCount shape (btwDims Bscols (source - 1) k) : ℕ) : ℚ) ≠ 0 := by
      have hp := axesCount_pos shape hpos (btwDims Bscols (source - 1) k)
      exact_mod_cast (by omega : axesCount shape (btwDims Bscols (source - 1) k) ≠ 0)
    field_simp
    ring

theorem betweenSS_const_zero (shape Bscols : List ℕ) (k Bbetweens : ℕ)
    (c n : ℚ) (hn : n ≠ 0) (hpos : ∀ d, 0 < shape.getD d 1) :
    ∀ source, betweenSS shape Bscols k Bbetweens (fun _ => c) (fun _ => n) source = 0 := by
  intro source
  unfold betweenSS sumAxes
  apply List.sum_eq_zero
  intro x hx
  rcases List.mem_map.mp hx with ⟨t, _, rfl⟩
  simp only [betweenEffect_const_zero shape Bscols k Bbetweens c n hn hpos source]
  ring

theorem SSwBetween_const (rows : List ((ℕ → ℕ) × ℚ)) (c : ℚ)
    (hr : ∀ r ∈ rows, r.2 = c) : SSwBetween rows (fun _ => c) = 0 := by
  unfold SSwBetween
  apply List.sum_eq_zero
  intro x hx
  rcases List.mem_map.mp hx with ⟨r, hrm, rfl⟩
  rw [hr r hrm]
  ring

theorem mixedEffect_zero (shape Bscols : List ℕ) (k Bwithins Bbetweens : ℕ)
    (DNarr : (ℕ → ℕ) → ℚ) :
    ∀ source idx,
      mixedEffect shape Bscols k Bwithins Bbetweens (fun _ => 0) DNarr source idx = 0 := by
  intro source
  induction source using Nat.strong_induction_on with
  | _ source ih =>
    intro idx
    rw [mixedEffect]
    have h1 : meanAxes shape (btwDims Bscols (Nat.ldiff Bbetweens source) k)
        (fun _ => (0 : ℚ)) = fun _ => (0 : ℚ) := by
      funext j
      unfold meanAxes
      rw [sumAxes_const]
      simp
    have hsub : ((neededSubsMixed Bwithins source).attach.map
        (fun sp => mixedEffect shape Bscols k Bwithins Bbetweens (fun _ => 0) DNarr
          sp.1 idx)).sum = 0 := by
      apply List.sum_eq_zero
      intro x hx
      rcases List.mem_map.mp hx with ⟨sp, _, rfl⟩
      have hr := (List.mem_filter.mp sp.2).1
      unfold pyRange2 at hr
      rw [List.mem_range'] at hr
      rcases hr with ⟨i, hi, heq⟩
      exact ih sp.1 (by omega) idx
    simp only [h1, zero_mul, zero_div, sumAxes_const, mul_zero, hsub]
    norm_num

theorem mixedRestrictSS_zero (shape Bscols : List ℕ) (k Bwithins Bbetweens : ℕ)
    (DNarr : (ℕ → ℕ) → ℚ) (source : ℕ) (idx : ℕ → ℕ) :
    mixedRestrictSS shape Bscols k Bwithins Bbetweens (fun _ => 0) DNarr source idx = 0 := by
  unfold mixedRestrictSS sumAxes
  apply List.sum_eq_zero
  intro x hx
  rcases List.mem_map.mp hx with ⟨t, _, rfl⟩
  simp only [mixedEffect_zero shape Bscols k Bwithins Bbetweens DNarr source]
  ring

theorem subtr_cellmeans_length (workd cells : List (List ℚ)) :
    (subtr_cellmeans workd cells).length = (transposeM workd).length := by
  unfold subtr_cellmeans
  suffices h : ∀ (cl : List (List ℚ)) (E : List (List ℚ)),
      E.length = (transposeM workd).length →
      (cl.foldl (fun errors mask =>
        matSub errors (outerM (groupMeans (transposeM workd) mask) mask)) E).length =
        (transposeM workd).length by
    exact h cells (transposeM workd) rfl
  intro cl
  induction cl with
  | nil => intro E hE; simpa using hE
  | cons m rest ih =>
    intro E hE
    rw [List.foldl_cons]
    apply ih
    rw [matSub, List.length_zipWith, hE]
    simp [outerM, groupMeans]

theorem grandDmeans_zero (workd : List (List ℚ))
    (hz : ∀ row ∈ workd, ∀ i : ℕ, row.getD i 0 = 0) :
    ∀ g ∈ grandDmeans workd, g = 0 := by
  intro g hg
  unfold grandDmeans at hg
  rcases List.mem_map.mp hg with ⟨col, hcol, rfl⟩
  unfold transposeM at hcol
  rcases List.mem_map.mp hcol with ⟨i, _, rfl⟩
  have hsum : (workd.map (fun row => row.getD i 0)).sum = 0 := by
    apply List.sum_eq_zero
    intro x hx
    rcases List.mem_map.mp hx with ⟨row, hrow, rfl⟩
    exact hz row hrow i
  rw [hsum]
  simp

theorem zipWith_grand_zero (gs : List ℚ) (E : List (List ℚ))
    (hlen : gs.length = E.length) (hz : ∀ g ∈ gs, g = 0) :
    List.zipWith (fun gv row => row.map (fun e => e + gv)) gs E = E := by
  induction gs generalizing E with
  | nil =>
    cases E with
    | nil => rfl
    | cons e E2 => simp at hlen
  | cons g gs2 ih =>
    cases E with
    | nil => simp at hlen
    | cons e E2 =>
      rw [List.zipWith_cons_cons]
      have hg : g = 0 := hz g (List.mem_cons_self g gs2)
      have hid : (fun x : ℚ => x + 0) = fun x => x := by funext x; ring
      rw [hg, hid]
      rw [List.map_id']
      congr 1
      exact ih E2 (by simpa using hlen) (fun x hx => hz x (List.mem_cons_of_mem g hx))

theorem d_restrict_mean_eq_full_of_zero (workd cells : List (List ℚ))
    (hz : ∀ row ∈ workd, ∀ i : ℕ, row.getD i 0 = 0) :
    d_restrict_mean workd cells = d_full_model workd cells := by
  unfold d_restrict_mean d_full_model
  congr 1
  apply zipWith_grand_zero
  · rw [subtr_cellmeans_length]
    simp [grandDmeans]
  · exact grandDmeans_zero workd hz

theorem zipWith_add_zero_row (z : List ℚ) : ∀ (e : List ℚ), z.length = e.length →
    (∀ x ∈ z, x = 0) → List.zipWith (fun a b => a + b) z e = e := by
  induction z with
  | nil =>
    intro e hlen _
    cases e with
    | nil => rfl
    | cons b bs => simp at hlen
  | cons a as ih =>
    intro e hlen hz
    cases e with
    | nil => simp at hlen
    | cons b bs =>
      rw [List.zipWith_cons_cons]
      have ha : a = 0 := hz a (List.mem_cons_self a as)
      rw [ha, zero_add]
      congr 1
      exact ih bs (by simpa using hlen) (fun x hx => hz x (List.mem_cons_of_mem a hx))

theorem matAdd_zero_left (Z : List (List ℚ)) : ∀ (E : List (List ℚ)),
    Z.length = E.length →
    (∀ i : ℕ, i < E.length → (Z.getD i []).length = (E.getD i []).length) →
    (∀ r ∈ Z, ∀ x ∈ r, x = 0) → matAdd Z E = E := by
  induction Z with
  | nil =>
    intro E hlen _ _
    cases E with
    | nil => rfl
    | cons e E2 => simp at hlen
  | cons z Z2 ih =>
    intro E hlen hrows hz
    cases E with
    | nil => simp at hlen
    | cons e E2 =>
      show List.zipWith (List.zipWith (fun a b => a + b)) (z :: Z2) (e :: E2) = e :: E2
      rw [List.zipWith_cons_cons]
      have hhead : List.zipWith (fun a b => a + b) z e = e := by
        apply zipWith_add_zero_row
        · have h0 := hrows 0 (by simp)
          simpa using h0
        · exact fun x hx => hz z (List.mem_cons_self z Z2) x hx
      rw [hhead]
      congr 1
      have htail := ih E2 (by simpa using hlen) ?_ ?_
      · exact htail
      · intro i hi
        have h1 := hrows (i + 1) (by simpa using Nat.succ_lt_succ hi)
        simpa using h1
      · exact fun r hr => hz r (List.mem_cons_of_mem z hr)

theorem zipWith_coeff_const (v : ℚ) : ∀ (coeff : List ℤ) (row : List ℚ),
    row.length = coeff.length → (∀ x ∈ row, x = v) →
    (List.zipWith (fun (cf : ℤ) (x : ℚ) => (cf : ℚ) * x) coeff row).sum =
      ((coeff.sum : ℤ) : ℚ) * v := by
  intro coeff
  induction coeff with
  | nil =>
    intro row h1 _
    rw [List.length_nil] at h1
    rw [List.length_eq_zero.mp h1]
    simp
  | cons cf cfs ih =>
    intro row h1 h2
    cases row with
    | nil => simp at h1
    | cons x xs =>
      rw [List.zipWith_cons_cons, List.sum_cons, List.sum_cons,
        h2 x (List.mem_cons_self x xs),
        ih xs (by simpa using h1) (fun y hy => h2 y (List.mem_cons_of_mem x hy))]
      push_cast
      ring

theorem dvarEntry_zero (coeff : List ℤ) (mns : List (List ℚ)) (hc : coeff.sum = 0)
    (hrows : ∀ row ∈ mns, ∃ v : ℚ, row.length = coeff.length ∧ ∀ x ∈ row, x = v) :
    dvarEntry coeff mns = 0 := by
  unfold dvarEntry
  apply List.sum_eq_zero
  intro x hx
  rcases List.mem_map.mp hx with ⟨row, hrow, rfl⟩
  rcases hrows row hrow with ⟨v, hlen, hconst⟩
  rw [zipWith_coeff_const v coeff row hlen hconst, hc]
  simp

/-- C4: numeric degeneracy never raises.  Zero error mean square forces
`F = 0` in the univariate branches; zero restricted-model determinant forces
`F = 0` in the mixed branch; `p` at `F = 0` is the collaborator right tail
at 0, i.e. 1.  For an input whose measured values are all identical, the
between-path effects and SS all vanish and `SSw = 0`; the contrast rows all
sum to 0, so every D-variable entry is 0, the mixed-path effects and
restriction vanish, the full and restricted error matrices coincide, and
`SS = 0` with `F = 0` in every branch. -/
theorem claim_C4_degeneracy_sentinels_and_constant_input :
    (∀ (SS SSw : ℚ) (dfnum dfden : ℤ), SSw / (dfden : ℚ) = 0 →
      univariateF SS SSw dfnum dfden = 0) ∧
    (∀ (sq : ℚ → ℚ) (pw : ℚ → ℚ → ℚ) (p k Ns dfn dEf : ℚ),
      wilksRaoF sq pw p k Ns dfn dEf 0 = 0) ∧
    (∀ (fprob : ℤ → ℤ → ℚ → ℚ) (dfnum dfden : ℤ),
      (∀ a b : ℤ, fprob a b 0 = 1) → univariateProb fprob dfnum dfden 0 = 1) ∧
    (∀ (shape Bscols : List ℕ) (k Bbetweens : ℕ) (c n : ℚ), n ≠ 0 →
      (∀ d, 0 < shape.getD d 1) →
      (∀ source idx,
        betweenEffect shape Bscols k Bbetweens (fun _ => c) (fun _ => n) source idx = 0) ∧
      (∀ source, betweenSS shape Bscols k Bbetweens (fun _ => c) (fun _ => n) source = 0)) ∧
    (∀ (rows : List ((ℕ → ℕ) × ℚ)) (c : ℚ), (∀ r ∈ rows, r.2 = c) →
      SSwBetween rows (fun _ => c) = 0) ∧
    (∀ L : ℕ, 2 ≤ L → L ≤ 10 → ∀ row ∈ coefflist.getD (L - 1) [], row.sum = 0) ∧
    (∀ (coeff : List ℤ) (mns : List (List ℚ)), coeff.sum = 0 →
      (∀ row ∈ mns, ∃ v : ℚ, row.length = coeff.length ∧ ∀ x ∈ row, x = v) →
      dvarEntry coeff mns = 0) ∧
    (∀ (shape Bscols : List ℕ) (k Bwithins Bbetweens : ℕ) (DNarr : (ℕ → ℕ) → ℚ)
      (source : ℕ) (idx : ℕ → ℕ),
      mixedEffect shape Bscols k Bwithins Bbetweens (fun _ => 0) DNarr source idx = 0 ∧
      mixedRestrictSS shape Bscols k Bwithins Bbetweens (fun _ => 0) DNarr source idx = 0) ∧
    (∀ (det : List (List ℚ) → ℚ) (restrict workd cells : List (List ℚ)),
      (∀ row ∈ workd, ∀ i : ℕ, row.getD i 0 = 0) →
      (withinBranchSS det true restrict workd cells).1 = 0) ∧
    (∀ (det : List (List ℚ) → ℚ) (restrict workd cells : List (List ℚ)),
      restrict.length = (d_full_model workd cells).length →
      (∀ i : ℕ, i < (d_full_model workd cells).length →
        (restrict.getD i []).length = ((d_full_model workd cells).getD i []).length) →
      (∀ r ∈ restrict, ∀ x ∈ r, x = 0) →
      (withinBranchSS det false restrict workd cells).1 = 0) ∧
    (∀ (sq : ℚ → ℚ) (pw : ℚ → ℚ → ℚ), (∀ x, pw 1 x = 1) →
      ∀ (p k Ns dfn d : ℚ), wilksRaoF sq pw p k Ns dfn d d = 0) ∧
    (∀ (SSw : ℚ) (dfnum dfden : ℤ), univariateF 0 SSw dfnum dfden = 0) := by
  refine ⟨?_, ?_, ?_, ?_, ?_, ?_, ?_, ?_, ?_, ?_, ?_, ?_⟩
  · intro SS SSw dfnum dfden h
    simp [univariateF, h]
  · intro sq pw p k Ns dfn dEf
    simp [wilksRaoF]
  · intro fprob dfnum dfden hf
    simp [univariateProb, hf]
  · intro shape Bscols k Bbetweens c n hn hpos
    exact ⟨betweenEffect_const_zero shape Bscols k Bbetweens c n hn hpos,
      betweenSS_const_zero shape Bscols k Bbetweens c n hn hpos⟩
  · exact SSwBetween_const
  · intro L h2 h10
    interval_cases L <;> decide
  · exact dvarEntry_zero
  · intro shape Bscols k Bwithins Bbetweens DNarr source idx
    exact ⟨mixedEffect_zero shape Bscols k Bwithins Bbetweens DNarr source idx,
      mixedRestrictSS_zero shape Bscols k Bwithins Bbetweens DNarr source idx⟩
  · intro det restrict workd cells hz
    show det (d_restrict_mean workd cells) - det (d_full_model workd cells) = 0
    rw [d_restrict_mean_eq_full_of_zero workd cells hz]
    ring
  · intro det restrict workd cells hlen hrows hz
    show det (matAdd restrict (d_full_model workd cells)) - det (d_full_model workd cells) = 0
    rw [matAdd_zero_left restrict (d_full_model workd cells) hlen hrows hz]
    ring
  · intro sq pw hpow p k Ns dfn d
    unfold wilksRaoF
    split
    · next h => simp only [div_self h, hpow]; simp
    · rfl
  · intro SSw dfnum dfden
    simp only [univariateF]
    split <;> simp

/-- Witness for C4: the sentinel at zero error mean square, a vanishing
between-path SS for constant data 7 with cell count 3, and `p = 1` at
`F = 0`. -/
theorem claim_C4_degeneracy_sentinels_and_constant_input_witness :
    univariateF 5 0 2 3 = 0 ∧
    betweenSS [2] [0, 1] 1 2 (fun _ => 7) (fun _ => 3) 3 = 0 ∧
    univariateProb (fun _ _ _ => 1) 2 3 0 = 1 := by
  refine ⟨?_, ?_, ?_⟩
  · exact claim_C4_degeneracy_sentinels_and_constant_input.1 5 0 2 3 (by norm_num)
  · exact (claim_C4_degeneracy_sentinels_and_constant_input.2.2.2.1 [2] [0, 1] 1 2 7 3
      (by norm_num) (by intro d; rcases d with _ | d <;> simp)).2 3
  · exact claim_C4_degeneracy_sentinels_and_constant_input.2.2.1 (fun _ _ _ => 1) 2 3
      (fun _ _ => rfl)

end SciPyStats
